import Mathlib

/-!
Verification of the identity-reconciliation engine of `chat-users.mjs`.

The embedding models the JavaScript semantics that the engine relies on:

* identifiers can appear as primitive numbers, bigints, or wrapped
  large-integer objects (`{ value: ... }`);
* the `Map` keyed by `String(id)` is an insertion-ordered association list;
* JavaScript truthiness (`null`, `undefined`, the empty string, `0` and `0n`
  are falsy) drives the fill-missing merge `a || b || null`;
* `String(n)` and `BigInt.prototype.toString` print exact decimal digits
  (for primitive numbers this is exact only below `2 ^ 53`, which is why
  some theorems carry that well-formedness hypothesis);
* `Number(bigint)` rounds to the nearest double (round-to-nearest-even),
  modelled by `toDouble`;
* a thrown `TypeError` is modelled by the `Except.error` branch of `addUser`.
-/

namespace ChatUsers

/-- A primitive JavaScript identifier value: a number or a bigint carrying a
natural-number value (Telegram identifiers are positive). -/
inductive JSPrim where
  | num (n : Nat)
  | big (n : Nat)
deriving DecidableEq

/-- Numeric value of a primitive identifier. -/
def JSPrim.val : JSPrim → Nat
  | .num n => n
  | .big n => n

/-- The possible shapes of the `id` property of a user-like object:
absent (`undefined`), `null`, a primitive number or bigint, or a wrapped
large-integer object whose `value` property is a bigint. -/
inductive JSIdField where
  | undef
  | jsnull
  | prim (p : JSPrim)
  | wrapped (n : Nat)
deriving DecidableEq

/-- A user-like object as delivered by the client library: an `id` plus
optional profile fields. `none` models both `null` and `undefined` (they
behave identically under `||` in the merge). -/
structure JSUserObj where
  id : JSIdField
  className : Option String := none
  username : Option String := none
  firstName : Option String := none
  lastName : Option String := none
  phone : Option String := none
  bot : Bool := false
  deleted : Bool := false
deriving DecidableEq

/-- An argument passed to `addUser`: a falsy value (`null`, `undefined`),
a bare primitive identifier, or a user object. -/
inductive JSUser where
  | nullish
  | prim (p : JSPrim)
  | obj (o : JSUserObj)
deriving DecidableEq

/-! ### Decimal strings

`String(id)` and `BigInt.prototype.toString` print the exact decimal digit
sequence.  We implement the printer with explicit fuel so that it is
structural (hence kernel-evaluable), together with a parser, and prove the
round trip. -/

/-- Little-endian decimal digits of `n`, with fuel (`fuel ≥ n` suffices). -/
def decDigitsAux : Nat → Nat → List Nat
  | 0, _ => []
  | _ + 1, 0 => []
  | f + 1, n + 1 => ((n + 1) % 10) :: decDigitsAux f ((n + 1) / 10)

/-- Little-endian decimal digits of `n`. -/
def decDigits (n : Nat) : List Nat := decDigitsAux n n

/-- Value of a little-endian decimal digit list. -/
def decValue : List Nat → Nat
  | [] => 0
  | d :: ds => d + 10 * decValue ds

/-- Decimal rendering of a natural number, modelling `String(n)` and
`n.toString()` on integer values. -/
def natToDec (n : Nat) : String :=
  if n = 0 then "0" else String.mk (((decDigits n).map Nat.digitChar).reverse)

/-- Numeric value of a decimal digit character. -/
def charDigitVal (c : Char) : Nat := c.toNat - 48

/-- Parse a decimal string back to a natural number, modelling `BigInt(s)`
on the strings emitted by `natToDec`. -/
def decParse (s : String) : Option Nat :=
  if s.data ≠ [] ∧ s.data.all Char.isDigit then
    some (decValue ((s.data.map charDigitVal).reverse))
  else none

theorem decValue_decDigitsAux : ∀ f n, n ≤ f → decValue (decDigitsAux f n) = n := by
  intro f
  induction f with
  | zero => intro n h; interval_cases n; rfl
  | succ f ih =>
    intro n h
    match n with
    | 0 => rfl
    | m + 1 =>
      have hdiv : (m + 1) / 10 ≤ f := by
        have := Nat.div_lt_self (Nat.succ_pos m) (by norm_num : (1:Nat) < 10)
        omega
      simp only [decDigitsAux, decValue, ih _ hdiv]
      omega

theorem decValue_decDigits (n : Nat) : decValue (decDigits n) = n :=
  decValue_decDigitsAux n n le_rfl

theorem decDigitsAux_lt_ten : ∀ f n, ∀ d ∈ decDigitsAux f n, d < 10 := by
  intro f
  induction f with
  | zero => intro n d hd; simp [decDigitsAux] at hd
  | succ f ih =>
    intro n d hd
    match n with
    | 0 => simp [decDigitsAux] at hd
    | m + 1 =>
      simp only [decDigitsAux, List.mem_cons] at hd
      rcases hd with h | h
      · omega
      · exact ih _ _ h

theorem decDigitsAux_ne_nil (f n : Nat) (h1 : n ≠ 0) (h2 : n ≤ f) :
    decDigitsAux f n ≠ [] := by
  match f, n with
  | 0, n => omega
  | f + 1, 0 => omega
  | f + 1, n + 1 => simp [decDigitsAux]

theorem digitChar_isDigit (d : Nat) (h : d < 10) : (Nat.digitChar d).isDigit = true := by
  interval_cases d <;> decide

theorem charDigitVal_digitChar (d : Nat) (h : d < 10) :
    charDigitVal (Nat.digitChar d) = d := by
  interval_cases d <;> decide

/-- A decimal string printed from a natural number parses back to the same
number: the round trip through the text format is exact. -/
theorem decParse_natToDec (n : Nat) : decParse (natToDec n) = some n := by
  by_cases h0 : n = 0
  · subst h0; decide
  · have hne : decDigits n ≠ [] := decDigitsAux_ne_nil n n h0 le_rfl
    have hlt : ∀ d ∈ decDigits n, d < 10 := decDigitsAux_lt_ten n n
    unfold natToDec decParse
    rw [if_neg h0]
    have hdata : (String.mk (((decDigits n).map Nat.digitChar).reverse)).data
        = ((decDigits n).map Nat.digitChar).reverse := rfl
    rw [hdata]
    have hnil : ((decDigits n).map Nat.digitChar).reverse ≠ [] := by
      simp [hne]
    have hall : (((decDigits n).map Nat.digitChar).reverse).all Char.isDigit = true := by
      rw [List.all_eq_true]
      intro c hc
      rw [List.mem_reverse, List.mem_map] at hc
      obtain ⟨d, hd, hcd⟩ := hc
      subst hcd
      exact digitChar_isDigit d (hlt d hd)
    rw [if_pos ⟨hnil, hall⟩]
    congr 1
    rw [List.map_reverse, List.reverse_reverse, List.map_map]
    have : (decDigits n).map (charDigitVal ∘ Nat.digitChar) = (decDigits n).map id :=
      List.map_congr_left (fun d hd => charDigitVal_digitChar d (hlt d hd))
    rw [this, List.map_id, decValue_decDigits]

/-- The decimal printer is injective: distinct identifier values always get
distinct map keys. -/
theorem natToDec_injective : Function.Injective natToDec := by
  intro a b h
  have ha := decParse_natToDec a
  have hb := decParse_natToDec b
  rw [h, hb] at ha
  exact (Option.some_injective _ ha).symm

/-! ### The participant record and the insertion-ordered map

`uniqueUsers` is a JavaScript `Map` keyed by `String(id)`.  A `Map`
preserves insertion order and `set` on an existing key updates in place,
so it is modelled as an association list with in-place update. -/

/-- A stored participant record.  It mirrors the object built by `addUser`:
the normalized `id`, the four profile fields, the OR-merged flags, and the
accumulated `_source` diagnostic tag.  `none` models `null`/`undefined`
(records created by the identifier-only branch simply lack the profile
keys, which behaves identically to `null` under `||`). -/
structure URec where
  id : JSPrim
  username : Option String := none
  firstName : Option String := none
  lastName : Option String := none
  phone : Option String := none
  bot : Bool := false
  deleted : Bool := false
  src : String := ""
deriving DecidableEq

/-- The in-memory directory: the `uniqueUsers` map as an insertion-ordered
association list from string keys to records. -/
abbrev DMap := List (String × URec)

/-- Map lookup, modelling `uniqueUsers.get(k)`. -/
def mapGet : DMap → String → Option URec
  | [], _ => none
  | (k', v) :: rest, k => if k' = k then some v else mapGet rest k

/-- Key-presence test, modelling `uniqueUsers.has(k)`. -/
def mapHas (m : DMap) (k : String) : Bool := (mapGet m k).isSome

/-- Map update, modelling `uniqueUsers.set(k, v)`: updates in place when the
key exists, otherwise appends (JavaScript `Map` preserves insertion order). -/
def mapSet : DMap → String → URec → DMap
  | [], k, v => [(k, v)]
  | (k', v') :: rest, k, v =>
      if k' = k then (k, v) :: rest else (k', v') :: mapSet rest k v

/-! ### JavaScript truthiness and the fill-missing merge -/

/-- Truthiness of an optional string: `null`, `undefined` and the empty
string are falsy. -/
def truthyS : Option String → Bool
  | some s => s ≠ ""
  | none => false

/-- The expression `a || b || null` on optional strings. -/
def jsOrS (a b : Option String) : Option String :=
  if truthyS a then a else if truthyS b then b else none

/-- Evaluation of the id-normalization expression
`typeof user.id === "object" && "value" in user.id ? user.id.value : user.id`.
When `user.id` is `null`, `typeof null === "object"` holds and the `in`
operator throws a `TypeError`, modelled by the error branch; `undefined`
evaluates to itself (`none` here); a wrapped object unwraps to its bigint
`value`. -/
def extractId : JSIdField → Except String (Option JSPrim)
  | .jsnull => .error "TypeError: cannot use the in operator to search for value in null"
  | .undef => .ok none
  | .prim p => .ok (some p)
  | .wrapped n => .ok (some (.big n))

/-- Map key of a normalized identifier, modelling `String(id)`.  Exact for
bigints; exact for primitive numbers holding integers below `2 ^ 53`. -/
def idKey (p : JSPrim) : String := natToDec p.val

/-- The merged record built by the object branch of `addUser`: new truthy
values win, otherwise the existing value is kept, otherwise `null`; the
`bot` and `deleted` flags are OR-combined; the `_source` tag accumulates. -/
def mergeRec (o : JSUserObj) (p : JSPrim) (existing : Option URec) (source : String) : URec :=
  { id := p
    username := jsOrS o.username (existing.bind URec.username)
    firstName := jsOrS o.firstName (existing.bind URec.firstName)
    lastName := jsOrS o.lastName (existing.bind URec.lastName)
    phone := jsOrS o.phone (existing.bind URec.phone)
    bot := o.bot || (existing.map URec.bot).getD false
    deleted := o.deleted || (existing.map URec.deleted).getD false
    src :=
      match existing with
      | some r => if r.src ≠ "" then r.src ++ ", " ++ source else source
      | none => source }

/-- The `addUser` helper of `chat-users.mjs`.  Returns the updated map and
the `isNew` flag, or an error when the JavaScript code would throw. -/
def addUser (m : DMap) (user : JSUser) (source : String) : Except String (DMap × Bool) :=
  match user with
  | .nullish => .ok (m, false)
  | .prim p =>
      if p.val = 0 then .ok (m, false)
      else
        if mapHas m (idKey p) then .ok (m, false)
        else .ok (mapSet m (idKey p) { id := p, src := source }, true)
  | .obj o =>
      match extractId o.id with
      | .error e => .error e
      | .ok none => .ok (m, false)
      | .ok (some p) =>
          if p.val = 0 then .ok (m, false)
          else
            if o.className = some "Channel" ∨ o.className = some "Chat" then .ok (m, false)
            else
              .ok (mapSet m (idKey p) (mergeRec o p (mapGet m (idKey p)) source),
                   (mapGet m (idKey p)).isNone)

/-- Folding a list of fragments into the directory.  A thrown error aborts
the fold, as an uncaught exception would abort the ingestion loop. -/
def foldE (m : DMap) : List (JSUser × String) → Except String DMap
  | [] => .ok m
  | (u, s) :: rest =>
      match addUser m u s with
      | .error e => .error e
      | .ok (m', _) => foldE m' rest

/-- The `resolveUser` helper: look the identifier up via the external
collaborator; on success fold the returned entity in, on failure (or on an
exception thrown inside the `try` block) fall back to storing the bare
identifier.  The function is total: every failure path is caught. -/
def resolveUser (lookup : Nat → Option JSUserObj) (m : DMap) (uid : JSPrim) : DMap :=
  if uid.val = 0 then m
  else
    match lookup uid.val with
    | some e =>
        match addUser m (.obj e) "resolved" with
        | .ok (m', _) => m'
        | .error _ =>
            match addUser m (.prim uid) "unresolved" with
            | .ok (m', _) => m'
            | .error _ => m
    | none =>
        match addUser m (.prim uid) "unresolved" with
        | .ok (m', _) => m'
        | .error _ => m

/-- The resolution pass: resolve each queued identifier in order. -/
def resolvePass (lookup : Nat → Option JSUserObj) (m : DMap) (ids : List JSPrim) : DMap :=
  ids.foldl (resolveUser lookup) m

/-! ### Finalization: strip, sort, serialize -/

/-- An output record: a stored record with the internal `_source` field
removed, as done by the destructuring map before sorting. -/
structure OutRec where
  id : JSPrim
  username : Option String := none
  firstName : Option String := none
  lastName : Option String := none
  phone : Option String := none
  bot : Bool := false
  deleted : Bool := false
deriving DecidableEq

/-- Strip the `_source` field from a stored record. -/
def URec.strip (r : URec) : OutRec :=
  { id := r.id, username := r.username, firstName := r.firstName,
    lastName := r.lastName, phone := r.phone, bot := r.bot, deleted := r.deleted }

/-- Fuel-based floor of the base-two logarithm (fuel `≥ n` suffices). -/
def log2fuel : Nat → Nat → Nat
  | 0, _ => 0
  | f + 1, n => if n ≤ 1 then 0 else log2fuel f (n / 2) + 1

/-- Round a natural number to the nearest IEEE-754 double
(round-to-nearest, ties-to-even), modelling `Number(bigint)`.  Exact below
`2 ^ 53`; above, the value is rounded to a multiple of the unit in the
last place.  Valid for all identifiers (far below the double overflow
threshold). -/
def toDouble (n : Nat) : Nat :=
  if n < 2 ^ 53 then n
  else
    let e := log2fuel n n
    let ulp := 2 ^ (e - 52)
    let q := n / ulp
    let r := n % ulp
    if 2 * r < ulp then q * ulp
    else if ulp < 2 * r then (q + 1) * ulp
    else if q % 2 = 0 then q * ulp else (q + 1) * ulp

/-- The numeric value the sort comparator sees for a record:
`typeof a.id === "bigint" ? Number(a.id) : (a.id || 0)`.  A bigint goes
through the lossy `Number` conversion; a primitive number is already a
double. -/
def sortKey (r : OutRec) : Nat :=
  match r.id with
  | .num n => n
  | .big n => toDouble n

/-- The comparator body `idA - idB` (its sign is what `sort` consumes, and
double subtraction of distinct doubles in the identifier range never
rounds to zero, so the sign is exact on the comparator keys). -/
def jsCompare (a b : OutRec) : Int := (sortKey a : Int) - (sortKey b : Int)

/-- The final `usersArray`: strip `_source` from every record (in map
insertion order), then sort with the comparator.  JavaScript `sort` is
stable, and insertion sort with the reflexive relation induced by a
consistent comparator is the stable sort. -/
def usersArray (m : DMap) : List OutRec :=
  List.insertionSort (fun a b => jsCompare a b ≤ 0)
    (m.map (fun kv => kv.2.strip))

/-! ### Serialization of identifiers -/

/-- The JSON form an identifier takes under
`JSON.stringify(usersArray, bigIntReplacer, 2)`: a decimal string for a
bigint, a native numeric literal otherwise. -/
inductive JsonId where
  | str (s : String)
  | jsnum (n : Nat)
deriving DecidableEq

/-- Serialization of an identifier through `bigIntReplacer`:
`typeof value === "bigint" ? value.toString() : value`. -/
def encodeId : JSPrim → JsonId
  | .big n => .str (natToDec n)
  | .num n => .jsnum n

/-- Re-parsing a serialized identifier to its numeric value: a decimal
string parses with arbitrary precision, a numeric literal is its own
value (exact for integers below `2 ^ 53`). -/
def decodeId : JsonId → Option Nat
  | .str s => decParse s
  | .jsnum n => some n

/-- Well-formedness of a primitive identifier in the model: a JavaScript
number can hold an integer exactly only below `2 ^ 53`, so larger
identifiers necessarily arrive as bigints (or wrapped objects).  Under
this condition `String(id)` prints exact decimal digits. -/
def WFprim : JSPrim → Prop
  | .num n => n < 2 ^ 53
  | .big _ => True

/-- Well-formedness of a fragment: every primitive-number identifier in it
is exactly representable as a double. -/
def WFuser : JSUser → Prop
  | .nullish => True
  | .prim p => WFprim p
  | .obj o =>
      match o.id with
      | .prim p => WFprim p
      | _ => True

/-! ### Lemmas about the insertion-ordered map -/

theorem mapGet_mapSet_self (m : DMap) (k : String) (v : URec) :
    mapGet (mapSet m k v) k = some v := by
  induction m with
  | nil => simp [mapSet, mapGet]
  | cons kv rest ih =>
    obtain ⟨k', v'⟩ := kv
    by_cases h : k' = k
    · subst h; simp [mapSet, mapGet]
    · simp [mapSet, mapGet, h, ih]

theorem mapGet_mapSet_ne (m : DMap) {k' k : String} (v : URec) (h : k' ≠ k) :
    mapGet (mapSet m k' v) k = mapGet m k := by
  induction m with
  | nil => simp [mapSet, mapGet, h]
  | cons kv rest ih =>
    obtain ⟨a, b⟩ := kv
    by_cases ha : a = k'
    · subst ha; simp [mapSet, mapGet, h]
    · simp only [mapSet, if_neg ha, mapGet]
      by_cases hak : a = k
      · simp [hak]
      · simp [hak, ih]

theorem mapSet_mapSet (m : DMap) (k : String) (v w : URec) :
    mapSet (mapSet m k v) k w = mapSet m k w := by
  induction m with
  | nil => simp [mapSet]
  | cons kv rest ih =>
    obtain ⟨a, b⟩ := kv
    by_cases ha : a = k
    · subst ha; simp [mapSet]
    · simp [mapSet, ha, ih]

theorem mem_of_mapGet_eq_some {m : DMap} {k : String} {r : URec}
    (h : mapGet m k = some r) : (k, r) ∈ m := by
  induction m with
  | nil => simp [mapGet] at h
  | cons kv rest ih =>
    obtain ⟨a, b⟩ := kv
    by_cases ha : a = k
    · subst ha
      simp only [mapGet, if_pos rfl] at h
      cases h
      exact List.mem_cons_self _ _
    · simp only [mapGet, if_neg ha] at h
      exact List.mem_cons_of_mem _ (ih h)

theorem mem_mapSet {m : DMap} {k : String} {v : URec} :
    ∀ kv ∈ mapSet m k v, kv = (k, v) ∨ kv ∈ m := by
  induction m with
  | nil =>
    intro kv hkv
    simp [mapSet] at hkv
    exact Or.inl hkv
  | cons ab rest ih =>
    obtain ⟨a, b⟩ := ab
    intro kv hkv
    by_cases ha : a = k
    · subst ha
      rw [mapSet, if_pos rfl] at hkv
      rcases List.mem_cons.mp hkv with h | h
      · exact Or.inl h
      · exact Or.inr (List.mem_cons_of_mem _ h)
    · rw [mapSet, if_neg ha] at hkv
      rcases List.mem_cons.mp hkv with h | h
      · exact Or.inr (by simp [h])
      · rcases ih kv h with h' | h'
        · exact Or.inl h'
        · exact Or.inr (List.mem_cons_of_mem _ h')

theorem mapHas_of_mapGet_eq_some {m : DMap} {k : String} {r : URec}
    (h : mapGet m k = some r) : mapHas m k = true := by
  simp [mapHas, h]

theorem mapGet_eq_none_of_mapHas_false {m : DMap} {k : String}
    (h : mapHas m k = false) : mapGet m k = none := by
  unfold mapHas at h
  cases hg : mapGet m k with
  | none => rfl
  | some r => rw [hg] at h; simp at h

theorem not_mem_keys_of_mapGet_none {k : String} (m : DMap) :
    mapGet m k = none → k ∉ m.map Prod.fst := by
  induction m with
  | nil => intro _; simp
  | cons kv rest ih =>
    obtain ⟨a, b⟩ := kv
    intro hg
    by_cases ha : a = k
    · subst ha; simp [mapGet] at hg
    · simp only [mapGet, if_neg ha] at hg
      simp only [List.map_cons, List.mem_cons]
      push_neg
      exact ⟨fun hk => ha hk.symm, ih hg⟩

theorem mapSet_keys_of_has (m : DMap) (k : String) (v : URec) :
    mapHas m k = true → (mapSet m k v).map Prod.fst = m.map Prod.fst := by
  induction m with
  | nil => intro h; simp [mapHas, mapGet] at h
  | cons kv rest ih =>
    obtain ⟨a, b⟩ := kv
    intro h
    by_cases ha : a = k
    · subst ha; simp [mapSet]
    · simp only [mapHas, mapGet, if_neg ha] at h
      simp [mapSet, ha, ih (by simp [mapHas, h])]

theorem mapSet_keys_of_not_has (m : DMap) (k : String) (v : URec) :
    mapHas m k = false → (mapSet m k v).map Prod.fst = m.map Prod.fst ++ [k] := by
  induction m with
  | nil => intro _; simp [mapSet]
  | cons kv rest ih =>
    obtain ⟨a, b⟩ := kv
    intro h
    by_cases ha : a = k
    · subst ha; simp [mapHas, mapGet] at h
    · simp only [mapHas, mapGet, if_neg ha] at h
      simp [mapSet, ha, ih (by simp [mapHas, h])]

/-! ### Lemmas about the merge -/

theorem jsOrS_of_truthy {a : Option String} (b : Option String)
    (h : truthyS a = true) : jsOrS a b = a := by
  simp [jsOrS, h]

theorem jsOrS_ne_some_empty (a b : Option String) : jsOrS a b ≠ some "" := by
  unfold jsOrS
  by_cases ha : truthyS a = true
  · rw [if_pos ha]
    cases a with
    | none => simp [truthyS] at ha
    | some s => simp only [truthyS, decide_eq_true_eq] at ha; simp [ha]
  · rw [if_neg ha]
    by_cases hb : truthyS b = true
    · rw [if_pos hb]
      cases b with
      | none => simp [truthyS] at hb
      | some s => simp only [truthyS, decide_eq_true_eq] at hb; simp [hb]
    · rw [if_neg hb]; simp

theorem jsOrS_absorb (a b : Option String) : jsOrS a (jsOrS a b) = jsOrS a b := by
  by_cases ha : truthyS a = true
  · simp [jsOrS, ha]
  · by_cases hb : truthyS b = true
    · have hab : jsOrS a b = b := by rw [jsOrS, if_neg ha, if_pos hb]
      rw [hab, jsOrS, if_neg ha, if_pos hb]
    · have hab : jsOrS a b = none := by rw [jsOrS, if_neg ha, if_neg hb]
      rw [hab, jsOrS, if_neg ha, ite_self]

theorem addUser_obj_eq {o : JSUserObj} {p : JSPrim}
    (hid : extractId o.id = Except.ok (some p)) (m : DMap) (src : String) :
    addUser m (.obj o) src =
      if p.val = 0 then .ok (m, false)
      else if o.className = some "Channel" ∨ o.className = some "Chat" then .ok (m, false)
      else .ok (mapSet m (idKey p) (mergeRec o p (mapGet m (idKey p)) src),
                (mapGet m (idKey p)).isNone) := by
  simp only [addUser, hid]

theorem addUser_obj_merge {o : JSUserObj} {p : JSPrim}
    (hid : extractId o.id = Except.ok (some p)) (hval : p.val ≠ 0)
    (hcls : ¬(o.className = some "Channel" ∨ o.className = some "Chat"))
    (m : DMap) (src : String) :
    addUser m (.obj o) src
      = .ok (mapSet m (idKey p) (mergeRec o p (mapGet m (idKey p)) src),
             (mapGet m (idKey p)).isNone) := by
  rw [addUser_obj_eq hid, if_neg hval, if_neg hcls]

/-- Master dichotomy: when `addUser` succeeds, a record already stored under
key `k` is either left exactly as it was, or (only when the fragment is an
object fragment for that very key) replaced by the merge of the fragment
with it.  Every persistence property follows from this. -/
theorem addUser_preserves {m m' : DMap} {u : JSUser} {src : String} {b : Bool}
    {k : String} {r : URec}
    (hadd : addUser m u src = Except.ok (m', b)) (hget : mapGet m k = some r) :
    ∃ r', mapGet m' k = some r' ∧
      (r' = r ∨ ∃ o p, u = JSUser.obj o ∧ extractId o.id = Except.ok (some p) ∧
        idKey p = k ∧ p.val ≠ 0 ∧
        ¬(o.className = some "Channel" ∨ o.className = some "Chat") ∧
        r' = mergeRec o p (some r) src) := by
  cases u with
  | nullish =>
    simp only [addUser, Except.ok.injEq, Prod.mk.injEq] at hadd
    obtain ⟨rfl, rfl⟩ := hadd
    exact ⟨r, hget, Or.inl rfl⟩
  | prim p =>
    simp only [addUser] at hadd
    split at hadd
    · simp only [Except.ok.injEq, Prod.mk.injEq] at hadd
      obtain ⟨rfl, rfl⟩ := hadd
      exact ⟨r, hget, Or.inl rfl⟩
    · split at hadd
      · simp only [Except.ok.injEq, Prod.mk.injEq] at hadd
        obtain ⟨rfl, rfl⟩ := hadd
        exact ⟨r, hget, Or.inl rfl⟩
      · rename_i h0 hh
        simp only [Except.ok.injEq, Prod.mk.injEq] at hadd
        obtain ⟨rfl, rfl⟩ := hadd
        have hne : idKey p ≠ k := by
          intro he
          have hnone := mapGet_eq_none_of_mapHas_false
            (m := m) (k := idKey p) (by simpa using hh)
          rw [he, hget] at hnone
          exact Option.noConfusion hnone
        exact ⟨r, by rw [mapGet_mapSet_ne m _ hne]; exact hget, Or.inl rfl⟩
  | obj o =>
    cases hx : extractId o.id with
    | error e => simp [addUser, hx] at hadd
    | ok oid =>
      cases oid with
      | none =>
        simp only [addUser, hx, Except.ok.injEq, Prod.mk.injEq] at hadd
        obtain ⟨rfl, rfl⟩ := hadd
        exact ⟨r, hget, Or.inl rfl⟩
      | some p =>
        rw [addUser_obj_eq hx] at hadd
        split at hadd
        · simp only [Except.ok.injEq, Prod.mk.injEq] at hadd
          obtain ⟨rfl, rfl⟩ := hadd
          exact ⟨r, hget, Or.inl rfl⟩
        · split at hadd
          · simp only [Except.ok.injEq, Prod.mk.injEq] at hadd
            obtain ⟨rfl, rfl⟩ := hadd
            exact ⟨r, hget, Or.inl rfl⟩
          · rename_i h0 hcls
            simp only [Except.ok.injEq, Prod.mk.injEq] at hadd
            obtain ⟨rfl, rfl⟩ := hadd
            by_cases hk : idKey p = k
            · refine ⟨mergeRec o p (some r) src, ?_, Or.inr ⟨o, p, rfl, hx, hk, h0, hcls, rfl⟩⟩
              rw [← hk, ← hget, ← hk]
              exact mapGet_mapSet_self m (idKey p) _
            · refine ⟨r, ?_, Or.inl rfl⟩
              rw [mapGet_mapSet_ne m _ hk]
              exact hget

/-! ### Shape of an update and preserved invariants -/

/-- Every successful `addUser` either leaves the directory unchanged or
stores one record whose key is the decimal rendering of its own normalized
identifier and whose profile fields are never the empty string. -/
theorem addUser_shape {m m' : DMap} {u : JSUser} {src : String} {b : Bool}
    (hadd : addUser m u src = Except.ok (m', b)) :
    m' = m ∨ ∃ k v, m' = mapSet m k v ∧ k = idKey v.id ∧
      v.username ≠ some "" ∧ v.firstName ≠ some "" ∧
      v.lastName ≠ some "" ∧ v.phone ≠ some "" := by
  cases u with
  | nullish =>
    simp only [addUser, Except.ok.injEq, Prod.mk.injEq] at hadd
    exact Or.inl hadd.1.symm
  | prim p =>
    simp only [addUser] at hadd
    split at hadd
    · simp only [Except.ok.injEq, Prod.mk.injEq] at hadd
      exact Or.inl hadd.1.symm
    · split at hadd
      · simp only [Except.ok.injEq, Prod.mk.injEq] at hadd
        exact Or.inl hadd.1.symm
      · simp only [Except.ok.injEq, Prod.mk.injEq] at hadd
        refine Or.inr ⟨idKey p, _, hadd.1.symm, rfl, ?_, ?_, ?_, ?_⟩ <;> simp
  | obj o =>
    cases hx : extractId o.id with
    | error e => simp [addUser, hx] at hadd
    | ok oid =>
      cases oid with
      | none =>
        simp only [addUser, hx, Except.ok.injEq, Prod.mk.injEq] at hadd
        exact Or.inl hadd.1.symm
      | some p =>
        rw [addUser_obj_eq hx] at hadd
        split at hadd
        · simp only [Except.ok.injEq, Prod.mk.injEq] at hadd
          exact Or.inl hadd.1.symm
        · split at hadd
          · simp only [Except.ok.injEq, Prod.mk.injEq] at hadd
            exact Or.inl hadd.1.symm
          · simp only [Except.ok.injEq, Prod.mk.injEq] at hadd
            refine Or.inr ⟨idKey p, _, hadd.1.symm, rfl, ?_, ?_, ?_, ?_⟩ <;>
              exact jsOrS_ne_some_empty _ _

/-- Generic preservation of a directory invariant along the ingestion fold. -/
theorem foldE_pres {P : DMap → Prop}
    (hstep : ∀ m m' u src b, addUser m u src = Except.ok (m', b) → P m → P m') :
    ∀ frags (m m' : DMap), foldE m frags = Except.ok m' → P m → P m' := by
  intro frags
  induction frags with
  | nil =>
    intro m m' hf hP
    simp only [foldE, Except.ok.injEq] at hf
    exact hf ▸ hP
  | cons f rest ih =>
    obtain ⟨u, src⟩ := f
    intro m m' hf hP
    simp only [foldE] at hf
    cases ha : addUser m u src with
    | error e => rw [ha] at hf; exact Except.noConfusion hf
    | ok pr =>
      obtain ⟨m1, b⟩ := pr
      rw [ha] at hf
      exact ih m1 m' hf (hstep m m1 u src b ha hP)

/-- Generic preservation of a directory invariant by one resolution step. -/
theorem resolveUser_pres {P : DMap → Prop}
    (hstep : ∀ m m' u src b, addUser m u src = Except.ok (m', b) → P m → P m')
    (lookup : Nat → Option JSUserObj) (m : DMap) (uid : JSPrim)
    (hP : P m) : P (resolveUser lookup m uid) := by
  unfold resolveUser
  split
  · exact hP
  · cases lookup uid.val with
    | some e =>
      simp only
      cases h1 : addUser m (.obj e) "resolved" with
      | ok pr => exact hstep m pr.1 _ _ pr.2 (by rw [h1]) hP
      | error _ =>
        cases h2 : addUser m (.prim uid) "unresolved" with
        | ok pr => exact hstep m pr.1 _ _ pr.2 (by rw [h2]) hP
        | error _ => exact hP
    | none =>
      simp only
      cases h2 : addUser m (.prim uid) "unresolved" with
      | ok pr => exact hstep m pr.1 _ _ pr.2 (by rw [h2]) hP
      | error _ => exact hP

/-- Generic preservation of a directory invariant along the resolution pass. -/
theorem resolvePass_pres {P : DMap → Prop}
    (hstep : ∀ m m' u src b, addUser m u src = Except.ok (m', b) → P m → P m')
    (lookup : Nat → Option JSUserObj) :
    ∀ (ids : List JSPrim) (m : DMap), P m → P (resolvePass lookup m ids) := by
  intro ids
  induction ids with
  | nil => intro m hP; exact hP
  | cons uid rest ih =>
    intro m hP
    exact ih (resolveUser lookup m uid) (resolveUser_pres hstep lookup m uid hP)

/-- Invariant: no stored profile field is the empty string (`addUser` can
only store truthy values or `null` in them). -/
def NoEmpty (m : DMap) : Prop :=
  ∀ kv ∈ m, kv.2.username ≠ some "" ∧ kv.2.firstName ≠ some "" ∧
    kv.2.lastName ≠ some "" ∧ kv.2.phone ≠ some ""

theorem addUser_NoEmpty (m m' : DMap) (u : JSUser) (src : String) (b : Bool)
    (hadd : addUser m u src = Except.ok (m', b)) (hP : NoEmpty m) : NoEmpty m' := by
  rcases addUser_shape hadd with rfl | ⟨k, v, rfl, _, hv1, hv2, hv3, hv4⟩
  · exact hP
  · intro kv hkv
    rcases mem_mapSet kv hkv with rfl | h
    · exact ⟨hv1, hv2, hv3, hv4⟩
    · exact hP kv h

/-- Invariant: keys are pairwise distinct and every key is the decimal
rendering of the numeric value of the identifier stored under it. -/
def KeysOK (m : DMap) : Prop :=
  (m.map Prod.fst).Nodup ∧ ∀ kv ∈ m, kv.1 = idKey kv.2.id

theorem addUser_KeysOK (m m' : DMap) (u : JSUser) (src : String) (b : Bool)
    (hadd : addUser m u src = Except.ok (m', b)) (hP : KeysOK m) : KeysOK m' := by
  rcases addUser_shape hadd with rfl | ⟨k, v, rfl, hk, _, _, _, _⟩
  · exact hP
  · obtain ⟨hnd, hco⟩ := hP
    constructor
    · cases hh : mapHas m k with
      | true => rw [mapSet_keys_of_has m k v hh]; exact hnd
      | false =>
        rw [mapSet_keys_of_not_has m k v hh]
        rw [List.nodup_append]
        refine ⟨hnd, List.nodup_singleton k, ?_⟩
        intro a ha hb
        rw [List.mem_singleton] at hb
        subst hb
        exact not_mem_keys_of_mapGet_none m (mapGet_eq_none_of_mapHas_false hh) ha
    · intro kv hkv
      rcases mem_mapSet kv hkv with rfl | h
      · exact hk
      · exact hco kv h

/-- One-step preservation of "a record is present under `k` with flags at
least as strong as the conditions `cb`, `cd`": merges can only OR more
`true`s in, never reset a flag. -/
theorem step_flags (k : String) (cb cd : Bool) :
    ∀ m m' u src b, addUser m u src = Except.ok (m', b) →
      (∃ r, mapGet m k = some r ∧ (cb = true → r.bot = true) ∧
        (cd = true → r.deleted = true)) →
      ∃ r, mapGet m' k = some r ∧ (cb = true → r.bot = true) ∧
        (cd = true → r.deleted = true) := by
  intro m m' u src b hadd h
  obtain ⟨r, hr, hb, hd⟩ := h
  obtain ⟨r', hr', hcase⟩ := addUser_preserves hadd hr
  rcases hcase with heq | ⟨o, p, _, _, _, _, _, rfl⟩
  · exact ⟨r', hr', fun hcb => heq ▸ hb hcb, fun hcd => heq ▸ hd hcd⟩
  · refine ⟨_, hr', ?_, ?_⟩
    · intro hcb; simp [mergeRec, hb hcb]
    · intro hcd; simp [mergeRec, hd hcd]

/-- One-step preservation of key presence: records are never deleted. -/
theorem step_presence (k : String) :
    ∀ m m' u src b, addUser m u src = Except.ok (m', b) →
      (∃ r, mapGet m k = some r) → ∃ r, mapGet m' k = some r := by
  intro m m' u src b hadd h
  obtain ⟨r, hr⟩ := h
  obtain ⟨r', hr', _⟩ := addUser_preserves hadd hr
  exact ⟨r', hr'⟩

/-- A directory is reachable when it is the result of folding some fragment
list into the empty directory (each run starts empty). -/
def Reachable (m : DMap) : Prop := ∃ frags, foldE [] frags = Except.ok m

theorem reachable_NoEmpty {m : DMap} (h : Reachable m) : NoEmpty m := by
  obtain ⟨frags, hf⟩ := h
  exact foldE_pres addUser_NoEmpty frags [] m hf
    (fun kv hkv => absurd hkv (List.not_mem_nil kv))

/-- The `username` value a fragment supplies (`none` for non-object
fragments, which carry no profile fields). -/
def suppliedUsername : JSUser → Option String
  | .obj o => o.username
  | _ => none

/-- The `firstName` value a fragment supplies. -/
def suppliedFirstName : JSUser → Option String
  | .obj o => o.firstName
  | _ => none

/-- The `lastName` value a fragment supplies. -/
def suppliedLastName : JSUser → Option String
  | .obj o => o.lastName
  | _ => none

/-- The `phone` value a fragment supplies. -/
def suppliedPhone : JSUser → Option String
  | .obj o => o.phone
  | _ => none

theorem jsOrS_keep {a b : Option String} {v : String} (hb : b = some v)
    (hbne : b ≠ some "") (ha : truthyS a = false) : jsOrS a b = some v := by
  subst hb
  have hv : v ≠ "" := fun he => hbne (by rw [he])
  have ht : truthyS (some v) = true := by
    simp only [truthyS, ne_eq, decide_eq_true_eq]
    exact hv
  rw [jsOrS, if_neg (by simp [ha]), if_pos ht]

/-- Helper for the OR-flag claim: once an object fragment for key `idKey p`
has been folded in, the record under that key exists for the rest of the
fold and its flags dominate the fragment flags. -/
theorem or_flag_aux (o : JSUserObj) (src : String) (p : JSPrim)
    (hid : extractId o.id = Except.ok (some p)) (hval : p.val ≠ 0)
    (hcls : ¬(o.className = some "Channel" ∨ o.className = some "Chat")) :
    ∀ (frags : List (JSUser × String)) (m0 m : DMap),
      (JSUser.obj o, src) ∈ frags → foldE m0 frags = Except.ok m →
      ∃ r, mapGet m (idKey p) = some r ∧ (o.bot = true → r.bot = true) ∧
        (o.deleted = true → r.deleted = true) := by
  intro frags
  induction frags with
  | nil =>
    intro m0 m hmem _
    exact absurd hmem (List.not_mem_nil _)
  | cons f rest ih =>
    obtain ⟨u, s⟩ := f
    intro m0 m hmem hfold
    simp only [foldE] at hfold
    cases ha : addUser m0 u s with
    | error e => rw [ha] at hfold; exact Except.noConfusion hfold
    | ok pr =>
      obtain ⟨m1, b⟩ := pr
      rw [ha] at hfold
      rcases List.mem_cons.mp hmem with heq | hmem2
      · have hu : JSUser.obj o = u := congrArg Prod.fst heq
        have hs : src = s := congrArg Prod.snd heq
        subst hu
        subst hs
        rw [addUser_obj_merge hid hval hcls] at ha
        injection ha with hpair
        injection hpair with hm1 _
        have hstart : ∃ r, mapGet m1 (idKey p) = some r ∧
            (o.bot = true → r.bot = true) ∧ (o.deleted = true → r.deleted = true) := by
          refine ⟨mergeRec o p (mapGet m0 (idKey p)) src, ?_, ?_, ?_⟩
          · rw [← hm1]; exact mapGet_mapSet_self m0 (idKey p) _
          · intro h; simp [mergeRec, h]
          · intro h; simp [mergeRec, h]
        exact foldE_pres (step_flags (idKey p) o.bot o.deleted) rest m1 m hfold hstart
      · exact ih m1 m hmem2 hfold

/-- Re-merging the same object fragment into a record it was already merged
into changes nothing except the `_source` diagnostic accumulator. -/
theorem mergeRec_strip_idem (o : JSUserObj) (p : JSPrim) (ex : Option URec)
    (s1 s2 : String) :
    (mergeRec o p (some (mergeRec o p ex s1)) s2).strip = (mergeRec o p ex s1).strip := by
  have habs : ∀ a b : Bool, (a || (a || b)) = (a || b) := by decide
  simp [mergeRec, URec.strip, jsOrS_absorb, habs]

theorem map_strip_mapSet (m : DMap) (k : String) (v w : URec)
    (hvw : v.strip = w.strip) :
    (mapSet m k v).map (fun kv => (kv.1, kv.2.strip))
      = (mapSet m k w).map (fun kv => (kv.1, kv.2.strip)) := by
  induction m with
  | nil => simp [mapSet, hvw]
  | cons ab rest ih =>
    obtain ⟨a, b⟩ := ab
    by_cases ha : a = k
    · subst ha; simp [mapSet, hvw]
    · simp [mapSet, ha, ih]

/-- The identifier-only branch of `addUser` when the key already exists:
nothing changes and `false` is reported (shared helper). -/
theorem addUser_prim_of_has (m : DMap) (p : JSPrim) (src : String)
    (h : mapHas m (idKey p) = true) :
    addUser m (JSUser.prim p) src = Except.ok (m, false) := by
  simp only [addUser]
  split
  · rfl
  · simp [h]

/-! ### Claims -/

/-- Claim C9 (code-bug evidence): the merge is specified never to raise and
to drop fragments with no resolvable subjectId silently, but an object
fragment whose `id` property is `null` makes the normalization expression
evaluate the `in` operator on `null` (because `typeof null === "object"`),
which throws a TypeError before the `!id` guard that would have dropped the
fragment. -/
theorem addUser_throws_on_null_id :
    addUser [] (JSUser.obj { id := JSIdField.jsnull }) "message.senderId"
      = Except.error "TypeError: cannot use the in operator to search for value in null" :=
  rfl

/-- Claim C10: applying an identifier-only (non-object) fragment whose
subjectId is already present leaves the whole directory — hence the stored
record, every profile field and the `_source` diagnostic field included —
unchanged, and reports `false`: no new subjectId was introduced. -/
theorem idonly_fragment_existing_unchanged (m : DMap) (p : JSPrim) (src : String)
    (h : mapHas m (idKey p) = true) :
    addUser m (JSUser.prim p) src = Except.ok (m, false) :=
  addUser_prim_of_has m p src h

theorem idonly_fragment_existing_unchanged_witness :
    addUser [("9", { id := JSPrim.num 9, src := "participants" })]
        (JSUser.prim (JSPrim.num 9)) "message.senderId"
      = Except.ok (([("9", { id := JSPrim.num 9, src := "participants" })] : DMap), false) :=
  idonly_fragment_existing_unchanged _ _ _ (by decide)

/-- Claim C8: when the external lookup for a queued identifier fails, the
resolution step leaves the directory unchanged (the bare record persists
exactly as it was and no exception escapes `resolveUser`), the rest of the
resolution pass runs exactly as if that identifier were absent, and the
record is still present after the whole pass. -/
theorem resolution_failure_is_local (lookup : Nat → Option JSUserObj) (m : DMap)
    (uid : JSPrim) (rest : List JSPrim) (r : URec)
    (hfail : lookup uid.val = none) (hpresent : mapGet m (idKey uid) = some r) :
    resolveUser lookup m uid = m ∧
    resolvePass lookup m (uid :: rest) = resolvePass lookup m rest ∧
    ∃ r2, mapGet (resolvePass lookup m (uid :: rest)) (idKey uid) = some r2 := by
  have h1 : resolveUser lookup m uid = m := by
    unfold resolveUser
    split
    · rfl
    · simp only [hfail]
      rw [addUser_prim_of_has m uid "unresolved" (mapHas_of_mapGet_eq_some hpresent)]
  have h2 : resolvePass lookup m (uid :: rest) = resolvePass lookup m rest := by
    unfold resolvePass
    rw [List.foldl_cons, h1]
  refine ⟨h1, h2, ?_⟩
  rw [h2]
  exact resolvePass_pres (step_presence (idKey uid)) lookup rest m ⟨r, hpresent⟩

theorem resolution_failure_is_local_witness :
    resolveUser (fun _ => none) [("9", { id := JSPrim.num 9, src := "message.senderId" })]
        (JSPrim.num 9) = [("9", { id := JSPrim.num 9, src := "message.senderId" })] ∧
    resolvePass (fun _ => none) [("9", { id := JSPrim.num 9, src := "message.senderId" })]
        [JSPrim.num 9]
      = resolvePass (fun _ => none)
          [("9", { id := JSPrim.num 9, src := "message.senderId" })] [] ∧
    ∃ r2, mapGet (resolvePass (fun _ => none)
        [("9", { id := JSPrim.num 9, src := "message.senderId" })] [JSPrim.num 9])
        (idKey (JSPrim.num 9)) = some r2 :=
  resolution_failure_is_local (fun _ => none) _ (JSPrim.num 9) []
    { id := JSPrim.num 9, src := "message.senderId" } rfl rfl

/-- Claim C7: an identifier serialized through the bigint replacer re-parses
to exactly the original arbitrary-precision value, and every identifier at
or beyond 2^53 — necessarily a bigint, since a primitive double cannot hold
such an integer exactly — is emitted as a decimal string, never as a native
numeric literal. -/
theorem id_serialization_roundtrip (p : JSPrim) (h : WFprim p) :
    decodeId (encodeId p) = some p.val ∧
    (2 ^ 53 ≤ p.val → ∃ s, encodeId p = JsonId.str s) := by
  cases p with
  | num n =>
    have hn : n < 2 ^ 53 := h
    exact ⟨rfl, fun hle => absurd hle (by simp only [JSPrim.val]; omega)⟩
  | big n =>
    exact ⟨decParse_natToDec n, fun _ => ⟨natToDec n, rfl⟩⟩

theorem id_serialization_roundtrip_witness :
    decodeId (encodeId (JSPrim.big 9007199254740993)) = some (JSPrim.big 9007199254740993).val ∧
    (2 ^ 53 ≤ (JSPrim.big 9007199254740993).val →
      ∃ s, encodeId (JSPrim.big 9007199254740993) = JsonId.str s) :=
  id_serialization_roundtrip (JSPrim.big 9007199254740993) trivial

/-- The output identifier values of a full run: ingest the fragments, then
strip, sort and read off the numeric identifier values in emitted order. -/
def runOutputIds (frags : List (JSUser × String)) : List Nat :=
  match foldE [] frags with
  | .ok m => (usersArray m).map (fun r => r.id.val)
  | .error _ => []

/-- Claim C1 (code-bug evidence): the output is specified to be sorted
ascending by the numeric value of subjectId even beyond 2^53, but the
comparator converts bigints through the lossy `Number()` conversion, which
collapses 9007199254740993 and 9007199254740992 to the same double; the
comparator then returns 0, the stable sort keeps insertion order, and the
emitted sequence is descending at these two records. -/
theorem sort_misorders_ids_beyond_two_pow_53 :
    runOutputIds
        [(JSUser.prim (JSPrim.big 9007199254740993), "message.senderId"),
         (JSUser.prim (JSPrim.big 9007199254740992), "message.senderId")]
      = [9007199254740993, 9007199254740992] ∧
    ¬ List.Sorted (· ≤ ·)
        (runOutputIds
          [(JSUser.prim (JSPrim.big 9007199254740993), "message.senderId"),
           (JSUser.prim (JSPrim.big 9007199254740992), "message.senderId")]) :=
  ⟨by decide, by decide⟩

/-- Ingestion scenario for claim C2: two object fragments for subjectId 5,
the first supplying username "alice", the second supplying username "bob". -/
def c2Input : List (JSUser × String) :=
  [(JSUser.obj { id := .prim (.num 5), username := some "alice" }, "participants"),
   (JSUser.obj { id := .prim (.num 5), username := some "bob" }, "message.senderId")]

/-- Claim C2 counterexample: both fragments supply a non-null username, and
the merged record keeps "bob" — the value from the fragment applied last —
not "alice" from the fragment applied first, refuting first-non-null-wins. -/
theorem merge_overwrites_first_username :
    (match foldE [] c2Input with
     | .ok m => (mapGet m "5").map URec.username
     | .error _ => none) = some (some "bob") ∧
    (some (some "bob") : Option (Option String)) ≠ some (some "alice") :=
  ⟨by decide, by decide⟩

/-- Claim C2 amended: when a later fragment supplies a truthy (non-null,
non-empty) value for a profile field, the merged record keeps the later
fragment value — last-non-null wins per field (null still never
overwrites non-null). -/
theorem merge_last_nonnull_wins (m : DMap) (o : JSUserObj) (src : String) (p : JSPrim)
    (hid : extractId o.id = Except.ok (some p)) (hval : p.val ≠ 0)
    (hcls : ¬(o.className = some "Channel" ∨ o.className = some "Chat")) :
    ∃ m2 b, addUser m (JSUser.obj o) src = Except.ok (m2, b) ∧
      ∃ r, mapGet m2 (idKey p) = some r ∧
        (truthyS o.username = true → r.username = o.username) ∧
        (truthyS o.firstName = true → r.firstName = o.firstName) ∧
        (truthyS o.lastName = true → r.lastName = o.lastName) ∧
        (truthyS o.phone = true → r.phone = o.phone) := by
  refine ⟨_, _, addUser_obj_merge hid hval hcls m src, ?_⟩
  refine ⟨mergeRec o p (mapGet m (idKey p)) src, mapGet_mapSet_self m _ _, ?_, ?_, ?_, ?_⟩
  all_goals intro ht
  all_goals exact jsOrS_of_truthy _ ht

/-- Concrete directory for the claim C2 witness: subjectId 5 already has
username "alice". -/
def c2Start : DMap := [("5", { id := JSPrim.num 5, username := some "alice", src := "participants" })]

/-- Concrete later fragment for the claim C2 witness: subjectId 5 with
username "bob". -/
def c2Bob : JSUserObj := { id := .prim (.num 5), username := some "bob" }

theorem merge_last_nonnull_wins_witness :
    ∃ m2 b, addUser c2Start (JSUser.obj c2Bob) "message.senderId" = Except.ok (m2, b) ∧
      ∃ r, mapGet m2 (idKey (JSPrim.num 5)) = some r ∧
        (truthyS c2Bob.username = true → r.username = c2Bob.username) ∧
        (truthyS c2Bob.firstName = true → r.firstName = c2Bob.firstName) ∧
        (truthyS c2Bob.lastName = true → r.lastName = c2Bob.lastName) ∧
        (truthyS c2Bob.phone = true → r.phone = c2Bob.phone) :=
  merge_last_nonnull_wins c2Start c2Bob "message.senderId" (JSPrim.num 5) rfl
    (by decide) (by decide)

/-- Fragment used by the claim C6 counterexample and witness. -/
def c6Frag : JSUser := JSUser.obj { id := .prim (.num 7), username := some "carol" }

/-- Claim C6 counterexample: applying the same fragment twice yields a
different stored ParticipantRecord than applying it once — the `_source`
diagnostic field accumulates its tag a second time ("participants,
participants" against "participants"). -/
theorem addUser_twice_source_differs :
    (match foldE [] [(c6Frag, "participants")] with
     | .ok m => mapGet m "7"
     | .error _ => none)
    ≠ (match foldE [] [(c6Frag, "participants"), (c6Frag, "participants")] with
       | .ok m => mapGet m "7"
       | .error _ => none) := by decide

/-- Claim C6 amended: the merge is idempotent up to the `_source`
diagnostic field — applying the same fragment twice yields a directory
whose every record agrees with the once-applied directory on the key and on
every field except `_source`. -/
theorem merge_idempotent_up_to_source (m m1 m2 : DMap) (u : JSUser) (src : String)
    (b1 b2 : Bool)
    (h1 : addUser m u src = Except.ok (m1, b1))
    (h2 : addUser m1 u src = Except.ok (m2, b2)) :
    m2.map (fun kv => (kv.1, kv.2.strip)) = m1.map (fun kv => (kv.1, kv.2.strip)) := by
  cases u with
  | nullish =>
    simp only [addUser, Except.ok.injEq, Prod.mk.injEq] at h1 h2
    rw [← h2.1]
  | prim p =>
    simp only [addUser] at h1 h2
    by_cases h0 : p.val = 0
    · rw [if_pos h0] at h1 h2
      simp only [Except.ok.injEq, Prod.mk.injEq] at h1 h2
      rw [← h2.1]
    · rw [if_neg h0] at h1 h2
      by_cases hh : mapHas m (idKey p) = true
      · rw [if_pos hh] at h1
        simp only [Except.ok.injEq, Prod.mk.injEq] at h1
        obtain ⟨hm1, _⟩ := h1
        subst hm1
        rw [if_pos hh] at h2
        simp only [Except.ok.injEq, Prod.mk.injEq] at h2
        rw [← h2.1]
      · rw [if_neg (by simpa using hh)] at h1
        simp only [Except.ok.injEq, Prod.mk.injEq] at h1
        obtain ⟨hm1, _⟩ := h1
        have hhas : mapHas m1 (idKey p) = true := by
          rw [← hm1]
          exact mapHas_of_mapGet_eq_some (mapGet_mapSet_self m (idKey p) _)
        rw [if_pos hhas] at h2
        simp only [Except.ok.injEq, Prod.mk.injEq] at h2
        rw [← h2.1]
  | obj o =>
    cases hx : extractId o.id with
    | error e => simp [addUser, hx] at h1
    | ok oid =>
      cases oid with
      | none =>
        simp only [addUser, hx, Except.ok.injEq, Prod.mk.injEq] at h1 h2
        rw [← h2.1]
      | some p =>
        rw [addUser_obj_eq hx] at h1 h2
        by_cases h0 : p.val = 0
        · rw [if_pos h0] at h1 h2
          simp only [Except.ok.injEq, Prod.mk.injEq] at h1 h2
          rw [← h2.1]
        · rw [if_neg h0] at h1 h2
          by_cases hcls : o.className = some "Channel" ∨ o.className = some "Chat"
          · rw [if_pos hcls] at h1 h2
            simp only [Except.ok.injEq, Prod.mk.injEq] at h1 h2
            rw [← h2.1]
          · rw [if_neg hcls] at h1 h2
            simp only [Except.ok.injEq, Prod.mk.injEq] at h1 h2
            obtain ⟨hm1, _⟩ := h1
            obtain ⟨hm2, _⟩ := h2
            subst hm1
            subst hm2
            rw [mapGet_mapSet_self m (idKey p)]
            rw [mapSet_mapSet m (idKey p)]
            exact map_strip_mapSet m (idKey p) _ _
              (mergeRec_strip_idem o p (mapGet m (idKey p)) src src)

/-- Directory contents after applying the claim C6 fragment once. -/
def c6Once : DMap := [("7", { id := JSPrim.num 7, username := some "carol", src := "participants" })]

/-- Directory contents after applying the claim C6 fragment twice. -/
def c6Twice : DMap := [("7", { id := JSPrim.num 7, username := some "carol", src := "participants, participants" })]

theorem merge_idempotent_up_to_source_witness :
    c6Twice.map (fun kv => (kv.1, kv.2.strip)) = c6Once.map (fun kv => (kv.1, kv.2.strip)) :=
  merge_idempotent_up_to_source [] c6Once c6Twice c6Frag "participants" true false rfl rfl

/-- Claim C4: in a reachable directory, once a record field holds a
non-null value, applying any later fragment that supplies null (or any
falsy value) for that field keeps the stored value intact — null never
overwrites non-null. -/
theorem null_never_overwrites_nonnull (m m2 : DMap) (u : JSUser) (src k : String)
    (r : URec) (b : Bool)
    (hreach : Reachable m) (hget : mapGet m k = some r)
    (hadd : addUser m u src = Except.ok (m2, b)) :
    ∃ r2, mapGet m2 k = some r2 ∧
      (∀ v, r.username = some v → truthyS (suppliedUsername u) = false →
        r2.username = some v) ∧
      (∀ v, r.firstName = some v → truthyS (suppliedFirstName u) = false →
        r2.firstName = some v) ∧
      (∀ v, r.lastName = some v → truthyS (suppliedLastName u) = false →
        r2.lastName = some v) ∧
      (∀ v, r.phone = some v → truthyS (suppliedPhone u) = false →
        r2.phone = some v) := by
  have hne := reachable_NoEmpty hreach (k, r) (mem_of_mapGet_eq_some hget)
  obtain ⟨r2, hr2, hcase⟩ := addUser_preserves hadd hget
  rcases hcase with heq | ⟨o, p, hu, _, _, _, _, rfl⟩
  · exact ⟨r2, hr2, fun v hv _ => heq.symm ▸ hv, fun v hv _ => heq.symm ▸ hv,
      fun v hv _ => heq.symm ▸ hv, fun v hv _ => heq.symm ▸ hv⟩
  · subst hu
    refine ⟨_, hr2, ?_, ?_, ?_, ?_⟩
    · intro v hv ht
      exact jsOrS_keep hv hne.1 ht
    · intro v hv ht
      exact jsOrS_keep hv hne.2.1 ht
    · intro v hv ht
      exact jsOrS_keep hv hne.2.2.1 ht
    · intro v hv ht
      exact jsOrS_keep hv hne.2.2.2 ht

/-- Record stored for subjectId 5 in the claim C4 witness. -/
def c4RecA : URec := { id := JSPrim.num 5, username := some "alice", src := "participants" }

/-- Starting directory of the claim C4 witness. -/
def c4Start : DMap := [("5", c4RecA)]

/-- Fragment that created the claim C4 starting directory. -/
def c4Seed : JSUser := JSUser.obj { id := .prim (.num 5), username := some "alice" }

/-- Later fragment of the claim C4 witness: null username, new firstName. -/
def c4Frag : JSUser := JSUser.obj { id := .prim (.num 5), firstName := some "xena" }

/-- Directory of the claim C4 witness after the later fragment. -/
def c4End : DMap := [("5", { id := JSPrim.num 5, username := some "alice", firstName := some "xena", src := "participants, resolved" })]

theorem null_never_overwrites_nonnull_witness :
    ∃ r2, mapGet c4End "5" = some r2 ∧
      (∀ v, c4RecA.username = some v → truthyS (suppliedUsername c4Frag) = false →
        r2.username = some v) ∧
      (∀ v, c4RecA.firstName = some v → truthyS (suppliedFirstName c4Frag) = false →
        r2.firstName = some v) ∧
      (∀ v, c4RecA.lastName = some v → truthyS (suppliedLastName c4Frag) = false →
        r2.lastName = some v) ∧
      (∀ v, c4RecA.phone = some v → truthyS (suppliedPhone c4Frag) = false →
        r2.phone = some v) :=
  null_never_overwrites_nonnull c4Start c4End c4Frag "resolved" "5" c4RecA false
    ⟨[(c4Seed, "participants")], rfl⟩ rfl rfl

/-- Claim C5: if any ingested object fragment for a subjectId carries
isAutomated (`bot`) = true, the final directory record for that subjectId
has `bot` = true, and symmetrically for isRemoved (`deleted`): the two
flags are OR-merged across fragments and never reset by later ones. -/
theorem or_flag_invariant (frags : List (JSUser × String)) (m0 m : DMap)
    (o : JSUserObj) (src : String) (p : JSPrim)
    (hmem : (JSUser.obj o, src) ∈ frags)
    (hid : extractId o.id = Except.ok (some p)) (hval : p.val ≠ 0)
    (hcls : ¬(o.className = some "Channel" ∨ o.className = some "Chat"))
    (hfold : foldE m0 frags = Except.ok m) :
    ∃ r, mapGet m (idKey p) = some r ∧ (o.bot = true → r.bot = true) ∧
      (o.deleted = true → r.deleted = true) :=
  or_flag_aux o src p hid hval hcls frags m0 m hmem hfold

/-- Bot fragment of the claim C5 witness. -/
def c5Bot : JSUserObj := { id := .prim (.num 3), bot := true }

/-- Final directory of the claim C5 witness. -/
def c5Final : DMap := [("3", { id := JSPrim.num 3, bot := true, src := "participants" })]

theorem or_flag_invariant_witness :
    ∃ r, mapGet c5Final (idKey (JSPrim.num 3)) = some r ∧
      (c5Bot.bot = true → r.bot = true) ∧ (c5Bot.deleted = true → r.deleted = true) :=
  or_flag_invariant [(JSUser.obj c5Bot, "participants")] [] c5Final c5Bot "participants"
    (JSPrim.num 3) (List.mem_singleton.mpr rfl) rfl (by decide) (by decide) rfl

/-- The identifier values of a finalized directory with coherent keys are
pairwise distinct: keys are unique in the map, every key is the decimal
rendering of its identifier value, the decimal rendering is injective, and
sorting only permutes. -/
theorem usersArray_nodup_of_KeysOK (mf : DMap) (hko : KeysOK mf) :
    ((usersArray mf).map (fun r => r.id.val)).Nodup := by
  obtain ⟨hnd, hco⟩ := hko
  have hkeys : mf.map Prod.fst = (mf.map (fun kv => kv.2.id.val)).map natToDec := by
    rw [List.map_map]
    exact List.map_congr_left (fun kv hkv => hco kv hkv)
  rw [hkeys] at hnd
  have hvals : (mf.map (fun kv => kv.2.id.val)).Nodup := by
    refine List.Nodup.of_map natToDec ?_
    exact hnd
  have h1 := List.perm_insertionSort (fun a b => jsCompare a b ≤ 0)
    (mf.map (fun kv => kv.2.strip))
  have h2 := h1.map (fun r : OutRec => r.id.val)
  rw [List.map_map] at h2
  have h3 : mf.map ((fun r : OutRec => r.id.val) ∘ fun kv : String × URec => kv.2.strip)
      = mf.map (fun kv => kv.2.id.val) := List.map_congr_left (fun kv _ => rfl)
  rw [h3] at h2
  exact h2.nodup_iff.mpr hvals

/-- Claim C3: after ingesting any well-formed fragment list and running any
resolution pass, the emitted sequence contains at most one record per
distinct numeric subjectId value — identifiers arriving as wrapped objects,
primitive numbers or bigints for the same value land on the same map key. -/
theorem output_ids_unique (frags : List (JSUser × String))
    (lookup : Nat → Option JSUserObj) (ids : List JSPrim) (m : DMap)
    (_hwf : ∀ f ∈ frags, WFuser f.1)
    (_hlk : ∀ u o2, lookup u = some o2 → WFuser (JSUser.obj o2))
    (hfold : foldE [] frags = Except.ok m) :
    ((usersArray (resolvePass lookup m ids)).map (fun r => r.id.val)).Nodup := by
  apply usersArray_nodup_of_KeysOK
  apply resolvePass_pres addUser_KeysOK lookup ids m
  apply foldE_pres addUser_KeysOK frags [] m hfold
  exact ⟨List.nodup_nil, fun kv hkv => absurd hkv (List.not_mem_nil kv)⟩

/-- Ingestion scenario of the claim C3 witness: subjectId 5 as a primitive
number, and subjectId 9007199254740993 appearing both as a wrapped
large-integer object and as a bigint. -/
def c3Frags : List (JSUser × String) :=
  [(JSUser.prim (JSPrim.num 5), "message.senderId"),
   (JSUser.obj { id := .wrapped 9007199254740993 }, "participants"),
   (JSUser.prim (JSPrim.big 9007199254740993), "action.ChatAddUser")]

/-- Directory produced by the claim C3 witness scenario. -/
def c3Final : DMap :=
  [("5", { id := JSPrim.num 5, src := "message.senderId" }),
   ("9007199254740993", { id := JSPrim.big 9007199254740993, src := "participants" })]

theorem output_ids_unique_witness :
    ((usersArray (resolvePass (fun _ => none) c3Final [])).map (fun r => r.id.val)).Nodup :=
  output_ids_unique c3Frags (fun _ => none) [] c3Final
    (by
      intro f hf
      fin_cases hf
      · show (5 : Nat) < 2 ^ 53
        decide
      · exact trivial
      · exact trivial)
    (fun u o2 h => Option.noConfusion h)
    rfl

end ChatUsers
